import Mathlib

/-!
Verification of the RedRust storage engine (src/src/main.rs) against its
natural-language specification.

The engine is embedded shallowly:
* `Instant` (Rust's monotonic clock) and wall-clock Unix time are both modelled
  as `Nat` seconds; every function that calls `Instant::now()` or
  `SystemTime::now()` in the source takes the corresponding time as an explicit
  parameter.  `Instant::duration_since` saturates at zero (Rust ≥ 1.60), which
  is exactly `Nat` subtraction; `u64::saturating_sub` likewise.
* The `HashMap<String, Entry>` store is modelled as an association list with
  unique keys (`StoreMap`); `hmGet`/`hmInsert`/`hmRemove` mirror
  `HashMap::get`/`insert`/`remove` (insert replaces in place, remove deletes
  the key), and the `entry(..).or_insert_with(..)` API is `entryOrInsert`.
* `process_command` takes the request line, tokenises it with the semantics of
  `trim().split_whitespace()`, and dispatches exactly as the `match` in the
  source; each command arm is its own definition (`cmdSET`, `cmdGET`, ...)
  with the source's literal response strings.
* Rust's `str::parse::<u64>` / `parse::<i64>` are `parseU64` / `parseI64`
  (optional sign, decimal digits, range check); `as usize` on an `i64` is the
  two's-complement reinterpretation `asUsize` (reduction modulo 2^64).
* File I/O is external to the store model: `save_data` is the map that the
  source serialises to JSON and writes, `load_data` is the fold the source
  performs over the parsed file contents.  The lock/IO *ordering* inside
  `save_data`, needed by the concurrency claim, is modelled by the
  statement-order event trace `save_data_trace`.
-/

namespace RedRust

/-- The `Value` enum of main.rs: a key holds a scalar string or a list. -/
inductive Value where
  | string (s : String)
  | list (l : List String)
deriving DecidableEq

/-- The `Entry` struct of main.rs: a value plus optional monotonic deadline
(`expires_at: Option<Instant>`, instants modelled as `Nat` seconds). -/
structure Entry where
  value : Value
  expires_at : Option Nat
deriving DecidableEq

/-- The in-memory store `HashMap<String, Entry>`, modelled as an association
list with unique keys. -/
abbrev StoreMap := List (String × Entry)

/-- `HashMap::get`: first binding of the key, if any. -/
def hmGet {α : Type} (k : String) : List (String × α) → Option α
  | [] => none
  | p :: rest => if p.1 = k then some p.2 else hmGet k rest

/-- `HashMap::insert`: replace the binding in place, or append a fresh one. -/
def hmInsert {α : Type} (k : String) (e : α) : List (String × α) → List (String × α)
  | [] => [(k, e)]
  | p :: rest => if p.1 = k then (k, e) :: rest else p :: hmInsert k e rest

/-- `HashMap::remove`: delete the key's binding. -/
def hmRemove {α : Type} (k : String) : List (String × α) → List (String × α)
  | [] => []
  | p :: rest => if p.1 = k then hmRemove k rest else p :: hmRemove k rest

/-- `HashMap::entry(key).or_insert_with(default)`: the entry for `key`,
inserting `dflt` first when the key is vacant (main.rs lines 256-259). -/
def entryOrInsert (key : String) (dflt : Entry) (db : StoreMap) : Entry × StoreMap :=
  match hmGet key db with
  | some e => (e, db)
  | none => (dflt, hmInsert key dflt db)

/-- The `SerializableValue` enum of main.rs (persistence image of `Value`). -/
inductive SerializableValue where
  | string (s : String)
  | list (l : List String)
deriving DecidableEq

/-- The `SerializableEntry` struct of main.rs: persisted value plus optional
absolute Unix-seconds expiry (field `expires_in_secs: Option<u64>`). -/
structure SerializableEntry where
  value : SerializableValue
  expires_in_secs : Option Nat
deriving DecidableEq

/-- `is_expired` (main.rs lines 96-98):
`entry.expires_at.map(|exp| exp <= Instant::now()).unwrap_or(false)`. -/
def is_expired (now : Nat) (entry : Entry) : Bool :=
  (entry.expires_at.map (fun exp => decide (exp ≤ now))).getD false

/-- `cleanup_expired` (main.rs lines 80-94): collect the keys whose deadline
has passed, then remove each of them. -/
def cleanup_expired (now : Nat) (db : StoreMap) : StoreMap :=
  let expired :=
    (db.filter (fun p => (p.2.expires_at.map (fun exp => decide (exp ≤ now))).getD false)).map
      Prod.fst
  expired.foldl (fun d key => hmRemove key d) db

/-- The value-copying match of `save_data` (main.rs lines 112-115). -/
def serValue : Value → SerializableValue
  | Value.string s => SerializableValue.string s
  | Value.list l => SerializableValue.list l

/-- The value-copying match of `load_data` (main.rs lines 167-170). -/
def loadValue : SerializableValue → Value
  | SerializableValue.string s => Value.string s
  | SerializableValue.list l => Value.list l

/-- `save_data` (main.rs lines 100-133), data part: the key → entry map that
the source serialises to JSON and writes to the snapshot file.  Expired
entries are filtered out; a monotonic deadline `exp` becomes the absolute
Unix timestamp `now_wall + exp.duration_since(now_mono).as_secs()`. -/
def save_data (now_mono now_wall : Nat) (db : StoreMap) : List (String × SerializableEntry) :=
  (db.filter (fun p => !is_expired now_mono p.2)).map (fun p =>
    (p.1,
      { value := serValue p.2.value,
        expires_in_secs := p.2.expires_at.map (fun exp => now_wall + (exp - now_mono)) }))

/-- The entry reconstructed by `load_data` for one parsed record: value copied,
deadline rebuilt as `now_mono + stored_expiry.saturating_sub(now_wall)`
(main.rs lines 167-175). -/
def loadEntry (now_mono now_wall : Nat) (e : SerializableEntry) : Entry :=
  { value := loadValue e.value,
    expires_at := e.expires_in_secs.map (fun exp => now_mono + (exp - now_wall)) }

/-- `load_data` (main.rs lines 135-181), data part: fold over the parsed file
contents, skipping every record whose stored Unix expiry is ≤ the current
wall clock, and inserting the rest into the store. -/
def load_data (now_mono now_wall : Nat) (data : List (String × SerializableEntry))
    (db : StoreMap) : StoreMap :=
  data.foldl (fun d p =>
    match p.2.expires_in_secs with
    | some exp =>
        if exp ≤ now_wall then d else hmInsert p.1 (loadEntry now_mono now_wall p.2) d
    | none => hmInsert p.1 (loadEntry now_mono now_wall p.2) d) db

/-! ### Tokenising and parsing helpers (semantics of the Rust std functions
used by `process_command`) -/

/-- `str::to_uppercase` for the ASCII command words used here. -/
def toUpperStr (s : String) : String := ⟨s.data.map Char.toUpper⟩

/-- Helper for `splitWhitespace`: accumulate the current word (reversed). -/
def wordsAux : List Char → List Char → List String
  | [], acc => if acc.isEmpty then [] else [⟨acc.reverse⟩]
  | c :: cs, acc =>
    if c.isWhitespace then
      if acc.isEmpty then wordsAux cs [] else ⟨acc.reverse⟩ :: wordsAux cs []
    else wordsAux cs (c :: acc)

/-- `command.trim().split_whitespace().collect()`: maximal runs of
non-whitespace characters, in order. -/
def splitWhitespace (s : String) : List String := wordsAux s.data []

/-- Decimal digit accumulation for the integer parsers. -/
def digitsToNat : List Char → Nat → Option Nat
  | [], acc => some acc
  | c :: cs, acc => if c.isDigit then digitsToNat cs (acc * 10 + (c.toNat - 48)) else none

/-- A non-empty all-digit string, as a natural number. -/
def parseDigits : List Char → Option Nat
  | [] => none
  | cs => digitsToNat cs 0

/-- `str::parse::<u64>`: optional leading `+`, decimal digits, range check. -/
def parseU64 (s : String) : Option Nat :=
  let cs :=
    match s.data with
    | '+' :: rest => rest
    | cs => cs
  (parseDigits cs).bind (fun n => if n < 2 ^ 64 then some n else none)

/-- `str::parse::<i64>`: optional sign, decimal digits, range check. -/
def parseI64 (s : String) : Option Int :=
  let core : Option Int :=
    match s.data with
    | '-' :: rest => (parseDigits rest).map (fun n => -(n : Int))
    | '+' :: rest => (parseDigits rest).map (fun n => (n : Int))
    | cs => (parseDigits cs).map (fun n => (n : Int))
  core.bind (fun x => if -(2 ^ 63) ≤ x ∧ x < 2 ^ 63 then some x else none)

/-- `as usize` applied to an `i64`: two's-complement reinterpretation,
i.e. the value modulo 2^64. -/
def asUsize (x : Int) : Nat := (x % (2 ^ 64 : Int)).toNat

/-! ### Response framing -/

/-- A RESP bulk string `format!("${}\r\n{}\r\n", s.len(), s)`. -/
def bulk (s : String) : String := "$" ++ toString s.length ++ "\r\n" ++ s ++ "\r\n"

/-- The type-mismatch error line used by every wrong-kind branch. -/
def wrongKind : String := "-ERR Operation against a key holding the wrong kind of value\r\n"

/-! ### The command processor, one definition per `match` arm of
`process_command` (main.rs lines 203-500).  Each returns the response line
and the store after the command. -/

/-- `SET key value [EX secs]` (main.rs lines 215-232). -/
def cmdSET (now : Nat) (parts : List String) (db : StoreMap) : String × StoreMap :=
  if parts.length < 3 then ("-ERR usage: SET key value [EX seconds]\r\n", db)
  else
    let key := parts.getD 1 ""
    let value := Value.string (parts.getD 2 "")
    if 5 ≤ parts.length ∧ toUpperStr (parts.getD 3 "") = "EX" then
      match parseU64 (parts.getD 4 "") with
      | some secs => ("+OK\r\n", hmInsert key ⟨value, some (now + secs)⟩ db)
      | none => ("-ERR invalid expire time\r\n", db)
    else
      ("+OK\r\n", hmInsert key ⟨value, none⟩ db)

/-- `GET key` (main.rs lines 234-247). -/
def cmdGET (now : Nat) (parts : List String) (db : StoreMap) : String × StoreMap :=
  if parts.length ≠ 2 then ("-ERR usage: GET key\r\n", db)
  else
    match hmGet (parts.getD 1 "") db with
    | some entry =>
      if is_expired now entry then ("$-1\r\n", db)
      else
        match entry.value with
        | Value.string s => (bulk s, db)
        | Value.list _ => (wrongKind, db)
    | none => ("$-1\r\n", db)

/-- `LPUSH key v [v ...]` (main.rs lines 250-270): `entry().or_insert_with`
an empty list, then `list.insert(0, v)` for the values in reverse order.
No expiry check. -/
def cmdLPUSH (parts : List String) (db : StoreMap) : String × StoreMap :=
  if parts.length < 3 then ("-ERR usage: LPUSH key value [value ...]\r\n", db)
  else
    let key := parts.getD 1 ""
    let r := entryOrInsert key ⟨Value.list [], none⟩ db
    match r.1.value with
    | Value.list l =>
      let l2 := (parts.drop 2).reverse.foldl (fun acc v => v :: acc) l
      (":" ++ toString l2.length ++ "\r\n", hmInsert key ⟨Value.list l2, r.1.expires_at⟩ r.2)
    | Value.string _ => (wrongKind, r.2)

/-- `RPUSH key v [v ...]` (main.rs lines 272-292): as LPUSH but `list.push`
in input order. -/
def cmdRPUSH (parts : List String) (db : StoreMap) : String × StoreMap :=
  if parts.length < 3 then ("-ERR usage: RPUSH key value [value ...]\r\n", db)
  else
    let key := parts.getD 1 ""
    let r := entryOrInsert key ⟨Value.list [], none⟩ db
    match r.1.value with
    | Value.list l =>
      let l2 := (parts.drop 2).foldl (fun acc v => acc ++ [v]) l
      (":" ++ toString l2.length ++ "\r\n", hmInsert key ⟨Value.list l2, r.1.expires_at⟩ r.2)
    | Value.string _ => (wrongKind, r.2)

/-- `LPOP key` (main.rs lines 294-318): `list.remove(0)`, removing the key
when the list drains to empty. -/
def cmdLPOP (now : Nat) (parts : List String) (db : StoreMap) : String × StoreMap :=
  if parts.length ≠ 2 then ("-ERR usage: LPOP key\r\n", db)
  else
    match hmGet (parts.getD 1 "") db with
    | some entry =>
      if is_expired now entry then ("$-1\r\n", db)
      else
        match entry.value with
        | Value.list l =>
          match l with
          | [] => ("$-1\r\n", db)
          | v :: rest =>
            if rest.isEmpty then (bulk v, hmRemove (parts.getD 1 "") db)
            else (bulk v, hmInsert (parts.getD 1 "") ⟨Value.list rest, entry.expires_at⟩ db)
        | Value.string _ => (wrongKind, db)
    | none => ("$-1\r\n", db)

/-- `RPOP key` (main.rs lines 320-343): `list.pop()`, removing the key when
the list drains to empty. -/
def cmdRPOP (now : Nat) (parts : List String) (db : StoreMap) : String × StoreMap :=
  if parts.length ≠ 2 then ("-ERR usage: RPOP key\r\n", db)
  else
    match hmGet (parts.getD 1 "") db with
    | some entry =>
      if is_expired now entry then ("$-1\r\n", db)
      else
        match entry.value with
        | Value.list l =>
          match l.getLast? with
          | some v =>
            let rest := l.dropLast
            if rest.isEmpty then (bulk v, hmRemove (parts.getD 1 "") db)
            else (bulk v, hmInsert (parts.getD 1 "") ⟨Value.list rest, entry.expires_at⟩ db)
          | none => ("$-1\r\n", db)
        | Value.string _ => (wrongKind, db)
    | none => ("$-1\r\n", db)

/-- `LLEN key` (main.rs lines 345-358). -/
def cmdLLEN (now : Nat) (parts : List String) (db : StoreMap) : String × StoreMap :=
  if parts.length ≠ 2 then ("-ERR usage: LLEN key\r\n", db)
  else
    match hmGet (parts.getD 1 "") db with
    | some entry =>
      if is_expired now entry then (":0\r\n", db)
      else
        match entry.value with
        | Value.list l => (":" ++ toString l.length ++ "\r\n", db)
        | Value.string _ => (wrongKind, db)
    | none => (":0\r\n", db)

/-- The `Value::List` branch of the LRANGE arm (main.rs lines 370-383): the
clamping arithmetic, the count header, and the source's `for` loop over
`actual_start..=actual_stop.min(len - 1)` with its bounds check.
`start` is clamped with `.max(0)` *before* the `as usize` cast, but `stop`
is clamped only with `.min(len - 1)`, so a negative clamped stop wraps
around in the cast. -/
def lrangeList (start stop : Int) (l : List String) : String :=
  let len : Int := l.length
  let actual_start : Nat := asUsize (max (if start < 0 then len + start else start) 0)
  let actual_stop : Nat := asUsize (min (if stop < 0 then len + stop else stop) (len - 1))
  let header :=
    "*" ++
      toString (if actual_start ≤ actual_stop then actual_stop - actual_start + 1 else 0) ++
      "\r\n"
  let idxs := List.range' actual_start (min actual_stop (l.length - 1) + 1 - actual_start)
  idxs.foldl (fun resp i => if i < l.length then resp ++ bulk (l.getD i "") else resp) header

/-- `LRANGE key start stop` (main.rs lines 360-390).  Malformed integers
default to 0 / -1. -/
def cmdLRANGE (now : Nat) (parts : List String) (db : StoreMap) : String × StoreMap :=
  if parts.length ≠ 4 then ("-ERR usage: LRANGE key start stop\r\n", db)
  else
    let start := (parseI64 (parts.getD 2 "")).getD 0
    let stop := (parseI64 (parts.getD 3 "")).getD (-1)
    match hmGet (parts.getD 1 "") db with
    | some entry =>
      if is_expired now entry then ("*0\r\n", db)
      else
        match entry.value with
        | Value.list l => (lrangeList start stop l, db)
        | Value.string _ => (wrongKind, db)
    | none => ("*0\r\n", db)

/-- `EXPIRE key secs` (main.rs lines 423-439): non-numeric seconds is a
silent `:0`; otherwise the deadline is overwritten (no liveness check). -/
def cmdEXPIRE (now : Nat) (parts : List String) (db : StoreMap) : String × StoreMap :=
  if parts.length ≠ 3 then ("-ERR usage: EXPIRE key seconds\r\n", db)
  else
    match parseU64 (parts.getD 2 "") with
    | none => (":0\r\n", db)
    | some secs =>
      match hmGet (parts.getD 1 "") db with
      | some entry =>
        (":1\r\n", hmInsert (parts.getD 1 "") ⟨entry.value, some (now + secs)⟩ db)
      | none => (":0\r\n", db)

/-- `TTL key` (main.rs lines 441-455): note there is *no* `is_expired` check;
`exp.duration_since(Instant::now())` saturates at zero. -/
def cmdTTL (now : Nat) (parts : List String) (db : StoreMap) : String × StoreMap :=
  if parts.length ≠ 2 then ("-ERR usage: TTL key\r\n", db)
  else
    match hmGet (parts.getD 1 "") db with
    | some entry =>
      match entry.expires_at with
      | some exp => (":" ++ toString (exp - now) ++ "\r\n", db)
      | none => (":-1\r\n", db)
    | none => (":-2\r\n", db)

/-- `DEL key` (main.rs lines 457-463). -/
def cmdDEL (parts : List String) (db : StoreMap) : String × StoreMap :=
  if parts.length ≠ 2 then ("-ERR usage: DEL key\r\n", db)
  else
    let removed := (hmGet (parts.getD 1 "") db).isSome
    (":" ++ (if removed then "1" else "0") ++ "\r\n", hmRemove (parts.getD 1 "") db)

/-- The keys listed by `KEYS` (main.rs lines 466-471):
`entry.expires_at.map(|exp| exp > now).unwrap_or(true)`. -/
def keysLive (now : Nat) (db : StoreMap) : List String :=
  (db.filter (fun p => (p.2.expires_at.map (fun exp => decide (now < exp))).getD true)).map
    Prod.fst

/-- `KEYS` (main.rs lines 465-478). -/
def cmdKEYS (now : Nat) (db : StoreMap) : String × StoreMap :=
  let keys := keysLive now db
  (keys.foldl (fun resp k => resp ++ bulk k) ("*" ++ toString keys.length ++ "\r\n"), db)

/-- `TYPE key` (main.rs lines 480-494). -/
def cmdTYPE (now : Nat) (parts : List String) (db : StoreMap) : String × StoreMap :=
  if parts.length ≠ 2 then ("-ERR usage: TYPE key\r\n", db)
  else
    match hmGet (parts.getD 1 "") db with
    | some entry =>
      if is_expired now entry then ("+none\r\n", db)
      else
        match entry.value with
        | Value.string _ => ("+string\r\n", db)
        | Value.list _ => ("+list\r\n", db)
    | none => ("+none\r\n", db)

/-- The dispatch of `process_command` (main.rs lines 203-500) over the token
list, in the source's arm order.  The `SAVE` / `BGSAVE` / `LASTSAVE` arms
touch the file system, which is outside the store model: their store effect
is none and the response shown is the success path (`SAVE`'s error path only
reports an I/O failure; `LASTSAVE`'s integer is the snapshot file's mtime). -/
def dispatchCmd (cmd : String) (now : Nat) (parts : List String) (db : StoreMap) :
    String × StoreMap :=
  if cmd = "SET" then cmdSET now parts db
    else if cmd = "GET" then cmdGET now parts db
    else if cmd = "LPUSH" then cmdLPUSH parts db
    else if cmd = "RPUSH" then cmdRPUSH parts db
    else if cmd = "LPOP" then cmdLPOP now parts db
    else if cmd = "RPOP" then cmdRPOP now parts db
    else if cmd = "LLEN" then cmdLLEN now parts db
    else if cmd = "LRANGE" then cmdLRANGE now parts db
    else if cmd = "SAVE" then ("+OK\r\n", db)
    else if cmd = "BGSAVE" then ("+Background saving started\r\n", db)
    else if cmd = "LASTSAVE" then (":-1\r\n", db)
    else if cmd = "EXPIRE" then cmdEXPIRE now parts db
    else if cmd = "TTL" then cmdTTL now parts db
    else if cmd = "DEL" then cmdDEL parts db
    else if cmd = "KEYS" then cmdKEYS now db
    else if cmd = "TYPE" then cmdTYPE now parts db
    else if cmd = "PING" then ("+PONG\r\n", db)
    else ("-ERR unknown command\r\n", db)

/-- The body of `process_command` on the token list: empty-command check, then
uppercase the leading token and dispatch. -/
def processCmd (now : Nat) (parts : List String) (db : StoreMap) : String × StoreMap :=
  if parts = [] then ("-ERR empty command\r\n", db)
  else dispatchCmd (toUpperStr (parts.headD "")) now parts db

/-- `process_command` (main.rs line 203): tokenise the request line as
`trim().split_whitespace()` does, then dispatch. -/
def process_command (now : Nat) (command : String) (db : StoreMap) : String × StoreMap :=
  processCmd now (splitWhitespace command) db

/-! ### Lock/IO ordering of `save_data`, for the concurrency claim.

`save_data` (main.rs lines 100-133) acquires the store mutex on its first
line; the resulting guard `db` lives to the end of the function, i.e. it is
dropped only *after* `serde_json::to_string_pretty` and `std::fs::write`.
The `SAVE` arm of `process_command` (lines 393-399) drops the command
processor's own guard before calling `save_data` (so the process does not
self-deadlock), then `save_data` re-acquires.  The statement order of these
lock and I/O events is recorded as explicit traces. -/

/-- Lock and I/O events of a save, in program order. -/
inductive SaveEv where
  | acquireStoreLock
  | snapshotCopy
  | serializeJson
  | writeFile
  | releaseStoreLock
deriving DecidableEq, BEq

/-- Statement-order event trace of `save_data` (main.rs lines 100-133): lock
at line 101, build the filtered copy (lines 108-124), serialise (line 126),
write the file (line 129), and only then drop the guard at end of scope. -/
def save_data_trace : List SaveEv :=
  [SaveEv.acquireStoreLock, SaveEv.snapshotCopy, SaveEv.serializeJson, SaveEv.writeFile,
    SaveEv.releaseStoreLock]

/-- Statement-order event trace of the `SAVE` arm of `process_command`
(main.rs lines 393-399): the handler's own guard (taken at line 211) is
dropped at line 394, then `save_data` runs its whole trace. -/
def save_cmd_trace : List SaveEv :=
  SaveEv.acquireStoreLock :: SaveEv.releaseStoreLock :: save_data_trace

/-! ### The store invariant of §3 of the spec -/

/-- An entry is well formed when a list value is non-empty. -/
def entryOK (e : Entry) : Bool :=
  match e.value with
  | Value.string _ => true
  | Value.list l => !l.isEmpty

/-- Store invariant: every present key holds a string or a non-empty list. -/
def storeInv (db : StoreMap) : Prop := ∀ p ∈ db, entryOK p.2 = true

instance (db : StoreMap) : Decidable (storeInv db) :=
  inferInstanceAs (Decidable (∀ p ∈ db, entryOK p.2 = true))

/-! ### Association-list map lemmas -/

theorem hmGet_insert_self {α : Type} (k : String) (e : α) (db : List (String × α)) :
    hmGet k (hmInsert k e db) = some e := by
  induction db with
  | nil => simp [hmGet, hmInsert]
  | cons p rest ih =>
    by_cases h : p.1 = k
    · simp [hmGet, hmInsert, h]
    · simp [hmGet, hmInsert, h, ih]

theorem hmGet_insert_ne {α : Type} {k k' : String} (h : k' ≠ k) (e : α)
    (db : List (String × α)) : hmGet k' (hmInsert k e db) = hmGet k' db := by
  have hk : ¬(k = k') := fun hk => h hk.symm
  induction db with
  | nil => simp [hmGet, hmInsert, hk]
  | cons p rest ih =>
    by_cases hp : p.1 = k
    · subst hp
      simp [hmGet, hmInsert, hk]
    · simp only [hmInsert, if_neg hp]
      by_cases hp' : p.1 = k'
      · simp [hmGet, hp']
      · simp [hmGet, hp', ih]

theorem hmGet_remove_self {α : Type} (k : String) (db : List (String × α)) :
    hmGet k (hmRemove k db) = none := by
  induction db with
  | nil => simp [hmGet, hmRemove]
  | cons p rest ih =>
    by_cases h : p.1 = k
    · simp [hmRemove, h, ih]
    · simp [hmGet, hmRemove, h, ih]

theorem hmGet_remove_ne {α : Type} {k k' : String} (h : k' ≠ k) (db : List (String × α)) :
    hmGet k' (hmRemove k db) = hmGet k' db := by
  have hk : ¬(k = k') := fun hk => h hk.symm
  induction db with
  | nil => simp [hmRemove]
  | cons p rest ih =>
    by_cases hp : p.1 = k
    · subst hp
      simp [hmGet, hmRemove, hk, ih]
    · by_cases hp' : p.1 = k'
      · simp [hmGet, hmRemove, hp, hp', h]
      · simp [hmGet, hmRemove, hp, hp', ih]

theorem hmGet_mem {α : Type} {k : String} {e : α} {db : List (String × α)}
    (h : hmGet k db = some e) : (k, e) ∈ db := by
  induction db with
  | nil => simp [hmGet] at h
  | cons p rest ih =>
    obtain ⟨a, b⟩ := p
    by_cases hp : a = k
    · subst hp
      simp only [hmGet, if_pos rfl] at h
      cases h
      exact List.mem_cons_self _ _
    · simp only [hmGet, if_neg hp] at h
      exact List.mem_cons_of_mem _ (ih h)

theorem hmGet_eq_none_of_not_mem {α : Type} {k : String} {db : List (String × α)}
    (h : k ∉ db.map Prod.fst) : hmGet k db = none := by
  induction db with
  | nil => rfl
  | cons p rest ih =>
    simp only [List.map_cons, List.mem_cons] at h
    push_neg at h
    have h1 : ¬(p.1 = k) := fun he => h.1 he.symm
    simp [hmGet, h1, ih h.2]

theorem hmGet_of_mem_nodup {α : Type} {k : String} {e : α} {db : List (String × α)}
    (hnd : (db.map Prod.fst).Nodup) (h : (k, e) ∈ db) : hmGet k db = some e := by
  induction db with
  | nil => simp at h
  | cons p rest ih =>
    simp only [List.map_cons, List.nodup_cons] at hnd
    rcases List.mem_cons.mp h with h | h
    · subst h
      simp [hmGet]
    · have hk : p.1 ≠ k := by
        intro hp
        exact hnd.1 (hp ▸ (List.mem_map.mpr ⟨(k, e), h, rfl⟩))
      simp [hmGet, hk, ih hnd.2 h]

theorem hmInsert_insert_same {α : Type} (k : String) (e e' : α) (db : List (String × α)) :
    hmInsert k e (hmInsert k e' db) = hmInsert k e db := by
  induction db with
  | nil => simp [hmInsert]
  | cons p rest ih =>
    by_cases h : p.1 = k
    · simp [hmInsert, h]
    · simp [hmInsert, h, ih]

/-! ### Invariant preservation for the basic map operations -/

theorem storeInv_insert {k : String} {e : Entry} {db : StoreMap} (hdb : storeInv db)
    (he : entryOK e = true) : storeInv (hmInsert k e db) := by
  induction db with
  | nil => intro p hp; simp [hmInsert] at hp; subst hp; exact he
  | cons q rest ih =>
    intro p hp
    by_cases h : q.1 = k
    · simp only [hmInsert, if_pos h] at hp
      rcases List.mem_cons.mp hp with hp | hp
      · subst hp; exact he
      · exact hdb p (List.mem_cons_of_mem _ hp)
    · simp only [hmInsert, if_neg h] at hp
      rcases List.mem_cons.mp hp with hp | hp
      · subst hp; exact hdb p (List.mem_cons_self _ _)
      · exact ih (fun q' hq' => hdb q' (List.mem_cons_of_mem _ hq')) p hp

theorem storeInv_remove {k : String} {db : StoreMap} (hdb : storeInv db) :
    storeInv (hmRemove k db) := by
  induction db with
  | nil => intro p hp; simp [hmRemove] at hp
  | cons q rest ih =>
    intro p hp
    by_cases h : q.1 = k
    · simp only [hmRemove, if_pos h] at hp
      exact ih (fun q' hq' => hdb q' (List.mem_cons_of_mem _ hq')) p hp
    · simp only [hmRemove, if_neg h] at hp
      rcases List.mem_cons.mp hp with hp | hp
      · subst hp; exact hdb p (List.mem_cons_self _ _)
      · exact ih (fun q' hq' => hdb q' (List.mem_cons_of_mem _ hq')) p hp

theorem storeInv_get {k : String} {e : Entry} {db : StoreMap} (hdb : storeInv db)
    (h : hmGet k db = some e) : entryOK e = true :=
  hdb (k, e) (hmGet_mem h)

/-! ### The push loops -/

theorem lpush_fold (vs l : List String) :
    vs.reverse.foldl (fun acc v => v :: acc) l = vs ++ l := by
  induction vs generalizing l with
  | nil => rfl
  | cons v vs ih =>
    simp only [List.reverse_cons, List.foldl_append, List.foldl_cons, List.foldl_nil]
    simp [ih]

theorem rpush_fold (vs l : List String) :
    vs.foldl (fun acc v => acc ++ [v]) l = l ++ vs := by
  induction vs generalizing l with
  | nil => simp
  | cons v vs ih => simp [List.foldl_cons, ih]

/-! ### The LRANGE response loop -/

/-- The concatenated bulk-string blocks for a list of elements. -/
def joinBulks : List String → String
  | [] => ""
  | s :: rest => bulk s ++ joinBulks rest

theorem lrange_foldl_eq (l : List String) (idxs : List Nat) (init : String)
    (h : ∀ i ∈ idxs, i < l.length) :
    idxs.foldl (fun resp i => if i < l.length then resp ++ bulk (l.getD i "") else resp) init =
      init ++ joinBulks (idxs.map (fun i => l.getD i "")) := by
  induction idxs generalizing init with
  | nil => simp [joinBulks, String.append_empty]
  | cons i idxs ih =>
    simp only [List.foldl_cons, List.map_cons, joinBulks,
      if_pos (h i (List.mem_cons_self _ _))]
    rw [ih _ (fun j hj => h j (List.mem_cons_of_mem _ hj)), String.append_assoc]

theorem range'_map_getD (l : List String) :
    ∀ (c s : Nat), s + c ≤ l.length →
      (List.range' s c).map (fun i => l.getD i "") = (l.drop s).take c := by
  intro c
  induction c with
  | zero => intro s _; simp
  | succ c ih =>
    intro s hs
    have hslt : s < l.length := by omega
    rw [List.range'_succ s c 1, List.map_cons, ih (s + 1) (by omega),
      List.drop_eq_getElem_cons hslt, List.take_succ_cons,
      List.getD_eq_getElem l "" hslt]

/-! ### Absence after removals and the sweeper -/

theorem hmGet_none_remove {α : Type} {k : String} {db : List (String × α)} (k' : String)
    (h : hmGet k db = none) : hmGet k (hmRemove k' db) = none := by
  by_cases hk : k = k'
  · subst hk; exact hmGet_remove_self k db
  · rw [hmGet_remove_ne hk]; exact h

theorem hmGet_foldl_remove_none {α : Type} {k : String} (keys : List String)
    {db : List (String × α)} (h : hmGet k db = none) :
    hmGet k (keys.foldl (fun d key => hmRemove key d) db) = none := by
  induction keys generalizing db with
  | nil => exact h
  | cons k' keys ih => exact ih (hmGet_none_remove k' h)

theorem hmGet_foldl_remove_mem {α : Type} {k : String} (keys : List String)
    (db : List (String × α)) (h : k ∈ keys) :
    hmGet k (keys.foldl (fun d key => hmRemove key d) db) = none := by
  induction keys generalizing db with
  | nil => simp at h
  | cons k' keys ih =>
    rcases List.mem_cons.mp h with h | h
    · subst h
      exact hmGet_foldl_remove_none keys (hmGet_remove_self k db)
    · exact ih _ h

/-! ### Lookup characterisations of `save_data` and `load_data` -/

theorem hmGet_save_none {nm nw : Nat} {k : String} {db : StoreMap}
    (h : hmGet k db = none) : hmGet k (save_data nm nw db) = none := by
  induction db with
  | nil => rfl
  | cons p rest ih =>
    simp only [hmGet] at h
    by_cases hp : p.1 = k
    · simp [hp] at h
    · simp only [if_neg hp] at h
      simp only [save_data, List.filter_cons]
      by_cases he : is_expired nm p.2
      · simpa [he, save_data] using ih h
      · simpa [he, hmGet, hp, save_data] using ih h

theorem hmGet_save (nm nw : Nat) {db : StoreMap} (hnd : (db.map Prod.fst).Nodup)
    (k : String) :
    hmGet k (save_data nm nw db) =
      match hmGet k db with
      | some e =>
        if is_expired nm e then none
        else some ⟨serValue e.value, e.expires_at.map (fun exp => nw + (exp - nm))⟩
      | none => none := by
  induction db with
  | nil => rfl
  | cons p rest ih =>
    simp only [List.map_cons, List.nodup_cons] at hnd
    by_cases hp : p.1 = k
    · subst hp
      simp only [hmGet, if_pos rfl]
      by_cases he : is_expired nm p.2
      · simp only [he, if_true]
        have hnone : hmGet p.1 rest = none :=
          hmGet_eq_none_of_not_mem hnd.1
        simpa [save_data, List.filter_cons, he] using hmGet_save_none hnone
      · simp [save_data, List.filter_cons, he, hmGet]
    · simp only [hmGet, if_neg hp]
      rw [← ih hnd.2]
      simp only [save_data, List.filter_cons]
      by_cases he : is_expired nm p.2
      · simp [he]
      · simp [he, hmGet, hp]

theorem load_data_get_not_mem {nm nw : Nat} {k : String}
    (data : List (String × SerializableEntry)) (db₀ : StoreMap)
    (h : k ∉ data.map Prod.fst) :
    hmGet k (load_data nm nw data db₀) = hmGet k db₀ := by
  induction data generalizing db₀ with
  | nil => rfl
  | cons p rest ih =>
    simp only [List.map_cons, List.mem_cons] at h
    push_neg at h
    have hk : k ≠ p.1 := h.1
    have hstep : ∀ db₁ : StoreMap,
        hmGet k (load_data nm nw [p] db₁) = hmGet k db₁ := by
      intro db₁
      simp only [load_data, List.foldl_cons, List.foldl_nil]
      rcases p.2.expires_in_secs with _ | exp
      · exact hmGet_insert_ne hk _ db₁
      · by_cases hle : exp ≤ nw
        · simp [hle]
        · simp [hle, hmGet_insert_ne hk]
    calc hmGet k (load_data nm nw (p :: rest) db₀)
        = hmGet k (load_data nm nw rest (load_data nm nw [p] db₀)) := rfl
      _ = hmGet k (load_data nm nw [p] db₀) := ih _ h.2
      _ = hmGet k db₀ := hstep db₀

theorem load_data_get {nm nw : Nat} {k : String}
    (data : List (String × SerializableEntry)) (hnd : (data.map Prod.fst).Nodup) :
    ∀ db₀ : StoreMap,
      hmGet k (load_data nm nw data db₀) =
        match hmGet k data with
        | some se =>
          match se.expires_in_secs with
          | some exp => if exp ≤ nw then hmGet k db₀ else some (loadEntry nm nw se)
          | none => some (loadEntry nm nw se)
        | none => hmGet k db₀ := by
  induction data with
  | nil => intro db₀; rfl
  | cons p rest ih =>
    intro db₀
    simp only [List.map_cons, List.nodup_cons] at hnd
    have hcons : load_data nm nw (p :: rest) db₀ =
        load_data nm nw rest (load_data nm nw [p] db₀) := rfl
    by_cases hp : p.1 = k
    · subst hp
      have hrest : hmGet p.1 (load_data nm nw rest (load_data nm nw [p] db₀)) =
          hmGet p.1 (load_data nm nw [p] db₀) :=
        load_data_get_not_mem rest _ hnd.1
      rw [hcons, hrest]
      have hget : hmGet p.1 (p :: rest) = some p.2 := by simp [hmGet]
      rw [hget]
      simp only [load_data, List.foldl_cons, List.foldl_nil]
      rcases hse : p.2.expires_in_secs with _ | exp
      · simp [hse, hmGet_insert_self]
      · by_cases hle : exp ≤ nw
        · simp [hse, hle]
        · simp [hse, hle, hmGet_insert_self]
    · have hstep : hmGet k (load_data nm nw [p] db₀) = hmGet k db₀ :=
        load_data_get_not_mem [p] db₀ (by simpa using fun he => hp he.symm)
      rw [hcons, ih hnd.2, hstep]
      simp [hmGet, hp]

theorem save_keys_nodup {nm nw : Nat} {db : StoreMap} (hnd : (db.map Prod.fst).Nodup) :
    ((save_data nm nw db).map Prod.fst).Nodup := by
  have heq : (save_data nm nw db).map Prod.fst =
      (db.filter (fun p => !is_expired nm p.2)).map Prod.fst := by
    simp only [save_data, List.map_map]
    rfl
  rw [heq]
  exact hnd.sublist (List.Sublist.map Prod.fst (List.filter_sublist db))

theorem loadValue_serValue (v : Value) : loadValue (serValue v) = v := by
  cases v <;> rfl

/-! ### Dispatch: `processCmd` on a canonical-case leading token reduces to
the corresponding command arm -/

theorem processCmd_SET (now : Nat) (rest : List String) (db : StoreMap) :
    processCmd now ("SET" :: rest) db = cmdSET now ("SET" :: rest) db := rfl

theorem processCmd_GET (now : Nat) (rest : List String) (db : StoreMap) :
    processCmd now ("GET" :: rest) db = cmdGET now ("GET" :: rest) db := rfl

theorem processCmd_LPUSH (now : Nat) (rest : List String) (db : StoreMap) :
    processCmd now ("LPUSH" :: rest) db = cmdLPUSH ("LPUSH" :: rest) db := rfl

theorem processCmd_RPUSH (now : Nat) (rest : List String) (db : StoreMap) :
    processCmd now ("RPUSH" :: rest) db = cmdRPUSH ("RPUSH" :: rest) db := rfl

theorem processCmd_LPOP (now : Nat) (rest : List String) (db : StoreMap) :
    processCmd now ("LPOP" :: rest) db = cmdLPOP now ("LPOP" :: rest) db := rfl

theorem processCmd_RPOP (now : Nat) (rest : List String) (db : StoreMap) :
    processCmd now ("RPOP" :: rest) db = cmdRPOP now ("RPOP" :: rest) db := rfl

theorem processCmd_LLEN (now : Nat) (rest : List String) (db : StoreMap) :
    processCmd now ("LLEN" :: rest) db = cmdLLEN now ("LLEN" :: rest) db := rfl

theorem processCmd_LRANGE (now : Nat) (rest : List String) (db : StoreMap) :
    processCmd now ("LRANGE" :: rest) db = cmdLRANGE now ("LRANGE" :: rest) db := rfl

theorem processCmd_EXPIRE (now : Nat) (rest : List String) (db : StoreMap) :
    processCmd now ("EXPIRE" :: rest) db = cmdEXPIRE now ("EXPIRE" :: rest) db := rfl

theorem processCmd_TTL (now : Nat) (rest : List String) (db : StoreMap) :
    processCmd now ("TTL" :: rest) db = cmdTTL now ("TTL" :: rest) db := rfl

theorem processCmd_DEL (now : Nat) (rest : List String) (db : StoreMap) :
    processCmd now ("DEL" :: rest) db = cmdDEL ("DEL" :: rest) db := rfl

theorem processCmd_KEYS (now : Nat) (rest : List String) (db : StoreMap) :
    processCmd now ("KEYS" :: rest) db = cmdKEYS now db := rfl

theorem processCmd_TYPE (now : Nat) (rest : List String) (db : StoreMap) :
    processCmd now ("TYPE" :: rest) db = cmdTYPE now ("TYPE" :: rest) db := rfl

/-! ### Invariant preservation, one lemma per mutating command -/

theorem entryOK_string (s : String) (x : Option Nat) :
    entryOK ⟨Value.string s, x⟩ = true := rfl

theorem entryOK_of_ne_nil {l : List String} (h : l ≠ []) (x : Option Nat) :
    entryOK ⟨Value.list l, x⟩ = true := by
  simp [entryOK, h]

theorem entryOK_expires {v : Value} (x y : Option Nat) :
    entryOK ⟨v, x⟩ = entryOK ⟨v, y⟩ := rfl

theorem storeInv_cmdSET {now : Nat} {parts : List String} {db : StoreMap}
    (h : storeInv db) : storeInv (cmdSET now parts db).2 := by
  unfold cmdSET
  split_ifs
  · exact h
  · rcases parseU64 (parts.getD 4 "") with _ | secs
    · exact h
    · exact storeInv_insert h (entryOK_string _ _)
  · exact storeInv_insert h (entryOK_string _ _)

theorem drop2_ne_nil {parts : List String} (h : ¬parts.length < 3) : parts.drop 2 ≠ [] := by
  have : (parts.drop 2).length = parts.length - 2 := List.length_drop 2 parts
  intro hnil
  rw [hnil] at this
  simp at this
  omega

theorem storeInv_cmdLPUSH {parts : List String} {db : StoreMap}
    (h : storeInv db) : storeInv (cmdLPUSH parts db).2 := by
  unfold cmdLPUSH
  split_ifs with h3
  · exact h
  · have hvs : parts.drop 2 ≠ [] := drop2_ne_nil h3
    unfold entryOrInsert
    rcases hget : hmGet (parts.getD 1 "") db with _ | e
    · simp only [hget]
      rw [hmInsert_insert_same]
      exact storeInv_insert h
        (entryOK_of_ne_nil (by simp [lpush_fold, hvs]) _)
    · simp only [hget]
      rcases hval : e.value with s | l
      · exact h
      · exact storeInv_insert h
          (entryOK_of_ne_nil (by simp [lpush_fold, hvs]) _)

theorem storeInv_cmdRPUSH {parts : List String} {db : StoreMap}
    (h : storeInv db) : storeInv (cmdRPUSH parts db).2 := by
  unfold cmdRPUSH
  split_ifs with h3
  · exact h
  · have hvs : parts.drop 2 ≠ [] := drop2_ne_nil h3
    unfold entryOrInsert
    rcases hget : hmGet (parts.getD 1 "") db with _ | e
    · simp only [hget]
      rw [hmInsert_insert_same]
      exact storeInv_insert h
        (entryOK_of_ne_nil (by simp [rpush_fold, hvs]) _)
    · simp only [hget]
      rcases hval : e.value with s | l
      · exact h
      · exact storeInv_insert h
          (entryOK_of_ne_nil (by simp [rpush_fold, hvs]) _)

theorem storeInv_cmdLPOP {now : Nat} {parts : List String} {db : StoreMap}
    (h : storeInv db) : storeInv (cmdLPOP now parts db).2 := by
  unfold cmdLPOP
  split_ifs
  · exact h
  · rcases hget : hmGet (parts.getD 1 "") db with _ | e
    · exact h
    · dsimp only
      by_cases hexp : is_expired now e = true
      · rw [if_pos hexp]
        exact h
      · rw [if_neg hexp]
        rcases e.value with s | l
        · exact h
        · rcases l with _ | ⟨v, rest⟩
          · exact h
          · dsimp only
            by_cases hr : rest.isEmpty = true
            · rw [if_pos hr]
              exact storeInv_remove h
            · rw [if_neg hr]
              exact storeInv_insert h
                (entryOK_of_ne_nil (by simpa using hr) _)

theorem storeInv_cmdRPOP {now : Nat} {parts : List String} {db : StoreMap}
    (h : storeInv db) : storeInv (cmdRPOP now parts db).2 := by
  unfold cmdRPOP
  split_ifs
  · exact h
  · rcases hget : hmGet (parts.getD 1 "") db with _ | e
    · exact h
    · dsimp only
      by_cases hexp : is_expired now e = true
      · rw [if_pos hexp]
        exact h
      · rw [if_neg hexp]
        rcases e.value with s | l
        · exact h
        · dsimp only
          rcases hlast : l.getLast? with _ | v
          · exact h
          · dsimp only
            by_cases hr : l.dropLast.isEmpty = true
            · rw [if_pos hr]
              exact storeInv_remove h
            · rw [if_neg hr]
              exact storeInv_insert h
                (entryOK_of_ne_nil (by simpa using hr) _)

theorem storeInv_cmdEXPIRE {now : Nat} {parts : List String} {db : StoreMap}
    (h : storeInv db) : storeInv (cmdEXPIRE now parts db).2 := by
  unfold cmdEXPIRE
  split_ifs
  · exact h
  · rcases parseU64 (parts.getD 2 "") with _ | secs
    · exact h
    · rcases hget : hmGet (parts.getD 1 "") db with _ | e
      · exact h
      · refine storeInv_insert h ?_
        obtain ⟨v, x⟩ := e
        rw [entryOK_expires _ x]
        exact storeInv_get h hget

theorem storeInv_cmdDEL {parts : List String} {db : StoreMap}
    (h : storeInv db) : storeInv (cmdDEL parts db).2 := by
  unfold cmdDEL
  split_ifs
  · exact h
  · exact storeInv_remove h

theorem cmdGET_snd (now : Nat) (parts : List String) (db : StoreMap) :
    (cmdGET now parts db).2 = db := by
  unfold cmdGET
  split_ifs
  · rfl
  · rcases hmGet (parts.getD 1 "") db with _ | e
    · rfl
    · dsimp only
      rcases e.value with s | l <;> split_ifs <;> rfl

theorem cmdLLEN_snd (now : Nat) (parts : List String) (db : StoreMap) :
    (cmdLLEN now parts db).2 = db := by
  unfold cmdLLEN
  split_ifs
  · rfl
  · rcases hmGet (parts.getD 1 "") db with _ | e
    · rfl
    · dsimp only
      rcases e.value with s | l <;> split_ifs <;> rfl

theorem cmdLRANGE_snd (now : Nat) (parts : List String) (db : StoreMap) :
    (cmdLRANGE now parts db).2 = db := by
  unfold cmdLRANGE
  split_ifs
  · rfl
  · rcases hmGet (parts.getD 1 "") db with _ | e
    · rfl
    · dsimp only
      rcases e.value with s | l <;> split_ifs <;> rfl

theorem cmdTTL_snd (now : Nat) (parts : List String) (db : StoreMap) :
    (cmdTTL now parts db).2 = db := by
  unfold cmdTTL
  split_ifs
  · rfl
  · rcases hmGet (parts.getD 1 "") db with _ | e
    · rfl
    · dsimp only
      rcases e.expires_at with _ | exp <;> rfl

theorem cmdTYPE_snd (now : Nat) (parts : List String) (db : StoreMap) :
    (cmdTYPE now parts db).2 = db := by
  unfold cmdTYPE
  split_ifs
  · rfl
  · rcases hmGet (parts.getD 1 "") db with _ | e
    · rfl
    · dsimp only
      rcases e.value with s | l <;> split_ifs <;> rfl

theorem cmdKEYS_snd (now : Nat) (db : StoreMap) : (cmdKEYS now db).2 = db := rfl

theorem storeInv_dispatchCmd (cmd : String) {now : Nat} {parts : List String} {db : StoreMap}
    (h : storeInv db) : storeInv (dispatchCmd cmd now parts db).2 := by
  unfold dispatchCmd
  by_cases h0 : cmd = "SET"
  · rw [if_pos h0]
    exact storeInv_cmdSET h
  rw [if_neg h0]
  by_cases h1 : cmd = "GET"
  · rw [if_pos h1]
    rw [cmdGET_snd]; exact h
  rw [if_neg h1]
  by_cases h2 : cmd = "LPUSH"
  · rw [if_pos h2]
    exact storeInv_cmdLPUSH h
  rw [if_neg h2]
  by_cases h3 : cmd = "RPUSH"
  · rw [if_pos h3]
    exact storeInv_cmdRPUSH h
  rw [if_neg h3]
  by_cases h4 : cmd = "LPOP"
  · rw [if_pos h4]
    exact storeInv_cmdLPOP h
  rw [if_neg h4]
  by_cases h5 : cmd = "RPOP"
  · rw [if_pos h5]
    exact storeInv_cmdRPOP h
  rw [if_neg h5]
  by_cases h6 : cmd = "LLEN"
  · rw [if_pos h6]
    rw [cmdLLEN_snd]; exact h
  rw [if_neg h6]
  by_cases h7 : cmd = "LRANGE"
  · rw [if_pos h7]
    rw [cmdLRANGE_snd]; exact h
  rw [if_neg h7]
  by_cases h8 : cmd = "SAVE"
  · rw [if_pos h8]
    exact h
  rw [if_neg h8]
  by_cases h9 : cmd = "BGSAVE"
  · rw [if_pos h9]
    exact h
  rw [if_neg h9]
  by_cases h10 : cmd = "LASTSAVE"
  · rw [if_pos h10]
    exact h
  rw [if_neg h10]
  by_cases h11 : cmd = "EXPIRE"
  · rw [if_pos h11]
    exact storeInv_cmdEXPIRE h
  rw [if_neg h11]
  by_cases h12 : cmd = "TTL"
  · rw [if_pos h12]
    rw [cmdTTL_snd]; exact h
  rw [if_neg h12]
  by_cases h13 : cmd = "DEL"
  · rw [if_pos h13]
    exact storeInv_cmdDEL h
  rw [if_neg h13]
  by_cases h14 : cmd = "KEYS"
  · rw [if_pos h14]
    rw [cmdKEYS_snd]; exact h
  rw [if_neg h14]
  by_cases h15 : cmd = "TYPE"
  · rw [if_pos h15]
    rw [cmdTYPE_snd]; exact h
  rw [if_neg h15]
  by_cases h16 : cmd = "PING"
  · rw [if_pos h16]
    exact h
  rw [if_neg h16]
  exact h

theorem storeInv_processCmd (now : Nat) (parts : List String) {db : StoreMap}
    (h : storeInv db) : storeInv (processCmd now parts db).2 := by
  unfold processCmd
  split_ifs
  · exact h
  · exact storeInv_dispatchCmd _ h

/-- An entry whose deadline has passed is physically removed by the sweeper. -/
theorem cleanup_expired_removes {now : Nat} {k : String} {e : Entry} {db : StoreMap}
    (hget : hmGet k db = some e) (hexp : is_expired now e = true) :
    hmGet k (cleanup_expired now db) = none := by
  unfold cleanup_expired
  apply hmGet_foldl_remove_mem
  have hmem : (k, e) ∈ db := hmGet_mem hget
  have : (k, e) ∈ db.filter
      (fun p => (p.2.expires_at.map (fun exp => decide (exp ≤ now))).getD false) := by
    apply List.mem_filter.mpr
    exact ⟨hmem, by simpa [is_expired] using hexp⟩
  exact List.mem_map.mpr ⟨(k, e), this, rfl⟩

/-! ### Reads on a present-but-expired entry (shared by several claims) -/

theorem expired_entry_reads {now : Nat} {k : String} {e : Entry} {db : StoreMap}
    (hget : hmGet k db = some e) (hexp : is_expired now e = true) :
    (processCmd now ["GET", k] db).1 = "$-1\r\n"
    ∧ (processCmd now ["TYPE", k] db).1 = "+none\r\n"
    ∧ (processCmd now ["LLEN", k] db).1 = ":0\r\n"
    ∧ (∀ a b : String, (processCmd now ["LRANGE", k, a, b] db).1 = "*0\r\n")
    ∧ (processCmd now ["LPOP", k] db).1 = "$-1\r\n"
    ∧ (processCmd now ["RPOP", k] db).1 = "$-1\r\n" := by
  refine ⟨?_, ?_, ?_, ?_, ?_, ?_⟩
  · rw [processCmd_GET]
    simp [cmdGET, hget, hexp]
  · rw [processCmd_TYPE]
    simp [cmdTYPE, hget, hexp]
  · rw [processCmd_LLEN]
    simp [cmdLLEN, hget, hexp]
  · intro a b
    rw [processCmd_LRANGE]
    simp [cmdLRANGE, hget, hexp]
  · rw [processCmd_LPOP]
    simp [cmdLPOP, hget, hexp]
  · rw [processCmd_RPOP]
    simp [cmdRPOP, hget, hexp]

/-! ### Claim C1 -/

/-- Claim C1 counterexample: the claim says TTL returns the absent sentinel
-2 for a key whose deadline has passed even when the sweeper has not yet
removed the entry.  But the TTL arm never checks `is_expired`: on the store
still physically holding `k` with deadline 5 at time 10 it answers `:0`
(the saturated remaining time), not `:-2`. -/
theorem ttl_expired_counterexample :
    (processCmd 10 ["TTL", "k"] [("k", ⟨Value.string "v", some 5⟩)]).1 = ":0\r\n"
    ∧ (processCmd 10 ["TTL", "k"] [("k", ⟨Value.string "v", some 5⟩)]).1 ≠ ":-2\r\n" := by
  constructor
  · decide
  · decide

/-- Claim C1 (amended): for a key whose entry's deadline has passed but is
still physically present, every reading command except TTL treats it as
absent — GET answers the nil bulk, TYPE answers "none", LLEN answers 0,
LRANGE answers the empty array for any bounds, LPOP and RPOP answer nil, and
KEYS omits the key; TTL, which performs no `is_expired` check, answers `:0`
(the remaining time saturated at zero), not the absent sentinel -2. -/
theorem expired_key_treated_absent (now : Nat) (k : String) (db : StoreMap) (e : Entry)
    (exp : Nat) (hnd : (db.map Prod.fst).Nodup)
    (hget : hmGet k db = some e) (hdl : e.expires_at = some exp) (hle : exp ≤ now) :
    (processCmd now ["GET", k] db).1 = "$-1\r\n"
    ∧ (processCmd now ["TYPE", k] db).1 = "+none\r\n"
    ∧ (processCmd now ["LLEN", k] db).1 = ":0\r\n"
    ∧ (∀ a b : String, (processCmd now ["LRANGE", k, a, b] db).1 = "*0\r\n")
    ∧ (processCmd now ["LPOP", k] db).1 = "$-1\r\n"
    ∧ (processCmd now ["RPOP", k] db).1 = "$-1\r\n"
    ∧ k ∉ keysLive now db
    ∧ (processCmd now ["TTL", k] db).1 = ":0\r\n" := by
  have hexp : is_expired now e = true := by simp [is_expired, hdl, hle]
  obtain ⟨hG, hT, hL, hR, hP, hQ⟩ := expired_entry_reads hget hexp
  refine ⟨hG, hT, hL, hR, hP, hQ, ?_, ?_⟩
  · intro hkin
    obtain ⟨p, hpfilter, hpk⟩ := List.mem_map.mp hkin
    obtain ⟨hpdb, hpred⟩ := List.mem_filter.mp hpfilter
    have hpget : hmGet k db = some p.2 := by
      rw [← hpk]
      exact hmGet_of_mem_nodup hnd (by cases p; exact hpdb)
    rw [hget] at hpget
    cases hpget
    rw [hdl] at hpred
    simp at hpred
    omega
  · rw [processCmd_TTL]
    have h0 : exp - now = 0 := Nat.sub_eq_zero_of_le hle
    simp [cmdTTL, hget, hdl, h0]
    decide

/-- Claim C1 witness: at time 10 on the store physically holding `k` with
deadline 5, GET is nil and KEYS omits `k`. -/
theorem expired_key_treated_absent_witness :
    (processCmd 10 ["GET", "k"] [("k", ⟨Value.string "v", some 5⟩)]).1 = "$-1\r\n"
    ∧ "k" ∉ keysLive 10 [("k", ⟨Value.string "v", some 5⟩)] := by
  have h := expired_key_treated_absent 10 "k" [("k", ⟨Value.string "v", some 5⟩)]
    ⟨Value.string "v", some 5⟩ 5 (by decide) (by decide) rfl (by decide)
  exact ⟨h.1, h.2.2.2.2.2.2.1⟩

/-! ### Claim C6 -/

/-- Claim C6: TTL answers the absent sentinel -2 for a missing key, the
no-expiry sentinel -1 for a present key without deadline (in particular right
after a plain SET), and the remaining whole seconds for a future deadline. -/
theorem ttl_sentinels (now now' : Nat) (k v : String) (db : StoreMap) (e : Entry)
    (exp : Nat) :
    (hmGet k db = none → (processCmd now ["TTL", k] db).1 = ":-2\r\n")
    ∧ (hmGet k db = some e → e.expires_at = none →
        (processCmd now ["TTL", k] db).1 = ":-1\r\n")
    ∧ ((processCmd now' ["TTL", k] ((processCmd now ["SET", k, v] db).2)).1 = ":-1\r\n")
    ∧ (hmGet k db = some e → e.expires_at = some exp → now < exp →
        (processCmd now ["TTL", k] db).1 = ":" ++ toString (exp - now) ++ "\r\n") := by
  refine ⟨?_, ?_, ?_, ?_⟩
  · intro hget
    rw [processCmd_TTL]
    simp [cmdTTL, hget]
  · intro hget hdl
    rw [processCmd_TTL]
    simp [cmdTTL, hget, hdl]
  · rw [processCmd_SET, processCmd_TTL]
    have hset : (cmdSET now ["SET", k, v] db).2 = hmInsert k ⟨Value.string v, none⟩ db := by
      simp [cmdSET]
    rw [hset]
    simp [cmdTTL, hmGet_insert_self]
  · intro hget hdl _
    rw [processCmd_TTL]
    simp [cmdTTL, hget, hdl]

/-- Claim C6 witness: through the full request pipeline, `TTL k` on an empty
store answers -2; after `SET k v` it answers -1; with deadline 30 at time 10
it answers 20. -/
theorem ttl_sentinels_witness :
    (process_command 10 "TTL k" []).1 = ":-2\r\n"
    ∧ (process_command 99 "TTL k" ((process_command 3 "SET k v" []).2)).1 = ":-1\r\n"
    ∧ (process_command 10 "TTL k" [("k", ⟨Value.string "v", some 30⟩)]).1 = ":20\r\n" := by
  have hs : splitWhitespace "TTL k" = ["TTL", "k"] := by decide
  have hs2 : splitWhitespace "SET k v" = ["SET", "k", "v"] := by decide
  refine ⟨?_, ?_, ?_⟩
  · have h := (ttl_sentinels 10 0 "k" "v" [] ⟨Value.string "v", none⟩ 0).1 rfl
    rw [process_command, hs]
    exact h
  · have h := (ttl_sentinels 3 99 "k" "v" [] ⟨Value.string "v", none⟩ 0).2.2.1
    rw [process_command, hs, process_command, hs2]
    exact h
  · have h := (ttl_sentinels 10 0 "k" "v" [("k", ⟨Value.string "v", some 30⟩)]
      ⟨Value.string "v", some 30⟩ 30).2.2.2 (by decide) rfl (by decide)
    rw [process_command, hs, h]
    decide

/-! ### Claim C4 -/

/-- Claim C4: every list command applied to a key holding a live String
answers the wrong-kind error and leaves the store completely unchanged, so
GET still answers the original string; symmetrically GET on a live List key
answers the wrong-kind error without mutation. -/
theorem type_guard (now : Nat) (k s a b : String) (vs : List String) (db : StoreMap)
    (e : Entry) (hvs : vs ≠ [])
    (hget : hmGet k db = some e) (hlive : is_expired now e = false) :
    (e.value = Value.string s →
      processCmd now ("LPUSH" :: k :: vs) db = (wrongKind, db)
      ∧ processCmd now ("RPUSH" :: k :: vs) db = (wrongKind, db)
      ∧ processCmd now ["LPOP", k] db = (wrongKind, db)
      ∧ processCmd now ["RPOP", k] db = (wrongKind, db)
      ∧ processCmd now ["LLEN", k] db = (wrongKind, db)
      ∧ processCmd now ["LRANGE", k, a, b] db = (wrongKind, db)
      ∧ (processCmd now ["GET", k] db).1 = bulk s)
    ∧ (∀ l, e.value = Value.list l → processCmd now ["GET", k] db = (wrongKind, db)) := by
  have hlen : 0 < vs.length := List.length_pos.mpr hvs
  constructor
  · intro hval
    refine ⟨?_, ?_, ?_, ?_, ?_, ?_, ?_⟩
    · rw [processCmd_LPUSH]
      simp [cmdLPUSH, entryOrInsert, hget, hval]
      intro hcon
      exact absurd hcon (by omega)
    · rw [processCmd_RPUSH]
      simp [cmdRPUSH, entryOrInsert, hget, hval]
      intro hcon
      exact absurd hcon (by omega)
    · rw [processCmd_LPOP]
      simp [cmdLPOP, hget, hlive, hval]
    · rw [processCmd_RPOP]
      simp [cmdRPOP, hget, hlive, hval]
    · rw [processCmd_LLEN]
      simp [cmdLLEN, hget, hlive, hval]
    · rw [processCmd_LRANGE]
      simp [cmdLRANGE, hget, hlive, hval]
    · rw [processCmd_GET]
      simp [cmdGET, hget, hlive, hval]
  · intro l hval
    rw [processCmd_GET]
    simp [cmdGET, hget, hlive, hval]

/-- Claim C4 witness: on a store holding the live string `v` at `k`, LPUSH
answers the wrong-kind error without mutation and GET still answers `v`. -/
theorem type_guard_witness :
    processCmd 0 ["LPUSH", "k", "x"] [("k", ⟨Value.string "v", none⟩)]
      = (wrongKind, [("k", ⟨Value.string "v", none⟩)])
    ∧ (processCmd 0 ["GET", "k"] [("k", ⟨Value.string "v", none⟩)]).1 = bulk "v" := by
  have h := (type_guard 0 "k" "v" "0" "1" ["x"] [("k", ⟨Value.string "v", none⟩)]
    ⟨Value.string "v", none⟩ (by decide) (by decide) (by decide)).1 rfl
  exact ⟨h.1, h.2.2.2.2.2.2⟩

/-! ### Claim C3 -/

/-- Claim C3: after any single command, every key present in the store holds
a string or a non-empty list (assuming the store satisfied the invariant
before); and LPOP/RPOP on a live one-element list return its element and
remove the key entirely, so a following LLEN answers 0 and TYPE answers
"none". -/
theorem nonempty_list_invariant (now now' now'' : Nat) (parts : List String)
    (db : StoreMap) (k v : String) (x : Option Nat) (hinv : storeInv db) :
    storeInv (processCmd now parts db).2
    ∧ (hmGet k db = some ⟨Value.list [v], x⟩ →
        is_expired now ⟨Value.list [v], x⟩ = false →
        processCmd now ["LPOP", k] db = (bulk v, hmRemove k db)
        ∧ processCmd now ["RPOP", k] db = (bulk v, hmRemove k db)
        ∧ (processCmd now' ["LLEN", k] (processCmd now ["LPOP", k] db).2).1 = ":0\r\n"
        ∧ (processCmd now'' ["TYPE", k] (processCmd now ["LPOP", k] db).2).1
            = "+none\r\n") := by
  refine ⟨storeInv_processCmd now parts hinv, ?_⟩
  intro hget hlive
  have hpop : processCmd now ["LPOP", k] db = (bulk v, hmRemove k db) := by
    rw [processCmd_LPOP]
    simp [cmdLPOP, hget, hlive]
  refine ⟨hpop, ?_, ?_, ?_⟩
  · rw [processCmd_RPOP]
    simp [cmdRPOP, hget, hlive]
  · rw [hpop, processCmd_LLEN]
    simp [cmdLLEN, hmGet_remove_self]
  · rw [hpop, processCmd_TYPE]
    simp [cmdTYPE, hmGet_remove_self]

/-- Claim C3 witness: on the store holding the live one-element list `[a]`,
LPOP answers `a` and empties the store, after which LLEN answers 0. -/
theorem nonempty_list_invariant_witness :
    storeInv (processCmd 0 ["RPUSH", "j", "b"] [("k", ⟨Value.list ["a"], none⟩)]).2
    ∧ processCmd 0 ["LPOP", "k"] [("k", ⟨Value.list ["a"], none⟩)] = (bulk "a", [])
    ∧ (processCmd 0 ["LLEN", "k"]
        (processCmd 0 ["LPOP", "k"] [("k", ⟨Value.list ["a"], none⟩)]).2).1 = ":0\r\n" := by
  have h := nonempty_list_invariant 0 0 0 ["RPUSH", "j", "b"]
    [("k", ⟨Value.list ["a"], none⟩)] "k" "a" none (by decide)
  have h2 := h.2 (by decide) (by decide)
  refine ⟨h.1, ?_, h2.2.2.1⟩
  have := h2.1
  rwa [show hmRemove "k" [("k", (⟨Value.list ["a"], none⟩ : Entry))] = [] from by decide]
    at this

/-! ### Characterising `lrangeList` when the usize casts do not wrap -/

theorem asUsize_eq {x : Int} (h0 : 0 ≤ x) (h1 : x < 2 ^ 64) : asUsize x = x.toNat := by
  unfold asUsize
  rw [Int.emod_eq_of_lt h0 h1]

theorem lrangeList_eq (start stop : Int) (l : List String) (hl : l ≠ [])
    (hn : (l.length : Int) < 2 ^ 63) (hstart : start < 2 ^ 63)
    (hstop : -(l.length : Int) ≤ stop) :
    lrangeList start stop l =
      if max (if start < 0 then (l.length : Int) + start else start) 0 ≤
          min (if stop < 0 then (l.length : Int) + stop else stop) ((l.length : Int) - 1) then
        "*" ++
          toString
            ((min (if stop < 0 then (l.length : Int) + stop else stop) ((l.length : Int) - 1) -
                max (if start < 0 then (l.length : Int) + start else start) 0 + 1).toNat) ++
          "\r\n" ++
          joinBulks
            ((l.drop
                (max (if start < 0 then (l.length : Int) + start else start) 0).toNat).take
              ((min (if stop < 0 then (l.length : Int) + stop else stop)
                    ((l.length : Int) - 1)).toNat + 1 -
                (max (if start < 0 then (l.length : Int) + start else start) 0).toNat))
      else "*0\r\n" := by
  have hlpos : 0 < l.length := List.length_pos.mpr hl
  have hlen0 : (0 : Int) < (l.length : Int) := by exact_mod_cast hlpos
  unfold lrangeList
  dsimp only
  set len : Int := (l.length : Int) with hlen_def
  set s' : Int := max (if start < 0 then len + start else start) 0 with hs'
  set t' : Int := min (if stop < 0 then len + stop else stop) (len - 1) with ht'
  have hs'0 : 0 ≤ s' := le_max_right _ _
  have hs'lt : s' < 2 ^ 64 := by
    by_cases hst : start < 0
    · rw [hs', if_pos hst]; omega
    · rw [hs', if_neg hst]; omega
  have ht'0 : 0 ≤ t' := by
    by_cases hsp : stop < 0
    · rw [ht', if_pos hsp]; omega
    · rw [ht', if_neg hsp]; omega
  have ht'le : t' ≤ len - 1 := min_le_right _ _
  have ht'lt : t' < 2 ^ 64 := by omega
  rw [asUsize_eq hs'0 hs'lt, asUsize_eq ht'0 ht'lt]
  by_cases hcmp : s' ≤ t'
  · have hcmpN : s'.toNat ≤ t'.toNat := by omega
    rw [if_pos hcmpN, if_pos hcmp]
    have hminN : min t'.toNat (l.length - 1) = t'.toNat := by omega
    rw [hminN]
    rw [lrange_foldl_eq l _ _ (by
      intro i hi
      rw [List.mem_range'_1] at hi
      omega)]
    rw [range'_map_getD l (t'.toNat + 1 - s'.toNat) s'.toNat (by omega)]
    have hcount : t'.toNat - s'.toNat + 1 = (t' - s' + 1).toNat := by omega
    rw [hcount]
  · have hcmpN : ¬(s'.toNat ≤ t'.toNat) := by omega
    rw [if_neg hcmpN, if_neg hcmp]
    have hcount : min t'.toNat (l.length - 1) + 1 - s'.toNat = 0 := by omega
    rw [hcount]
    simp [joinBulks, List.range']
    decide

theorem lrangeList_full (l : List String) (hl : l ≠ [])
    (hn : (l.length : Int) < 2 ^ 63) :
    lrangeList 0 (-1) l = "*" ++ toString l.length ++ "\r\n" ++ joinBulks l := by
  have hlpos : 0 < l.length := List.length_pos.mpr hl
  rw [lrangeList_eq 0 (-1) l hl hn (by norm_num) (by omega)]
  norm_num
  rw [if_pos (by omega : 1 ≤ l.length)]
  have h4 : ((l.length : Int) + -1).toNat + 1 = l.length := by omega
  rw [h4, List.take_length]

theorem parseI64_range {s : String} {x : Int} (hp : parseI64 s = some x) :
    -(2 ^ 63) ≤ x ∧ x < 2 ^ 63 := by
  unfold parseI64 at hp
  dsimp only at hp
  rcases Option.bind_eq_some.mp hp with ⟨y, _, hxy⟩
  split_ifs at hxy with h
  cases hxy
  exact h

theorem parseI64_getD_range (s : String) (d : Int) (hd1 : -(2 ^ 63) ≤ d) (hd2 : d < 2 ^ 63) :
    -(2 ^ 63) ≤ (parseI64 s).getD d ∧ (parseI64 s).getD d < 2 ^ 63 := by
  rcases hp : parseI64 s with _ | x
  · simpa using ⟨hd1, hd2⟩
  · simpa using parseI64_range hp

/-! ### Claim C5 -/

/-- Claim C5: on an absent key, RPUSH creates the list in argument order and
answers the new length; LPUSH then prepends with its first argument at the
front and answers the new length; LRANGE 0 -1 returns exactly the stored
elements in order.  (The length bound reflects `usize`.) -/
theorem list_push_order (now : Nat) (k : String) (vs ws : List String) (db : StoreMap)
    (habs : hmGet k db = none) (hvs : vs ≠ []) (hws : ws ≠ [])
    (hlen : ws.length + vs.length < 2 ^ 63) :
    processCmd now ("RPUSH" :: k :: vs) db
      = (":" ++ toString vs.length ++ "\r\n", hmInsert k ⟨Value.list vs, none⟩ db)
    ∧ processCmd now ("LPUSH" :: k :: ws) (hmInsert k ⟨Value.list vs, none⟩ db)
      = (":" ++ toString (ws.length + vs.length) ++ "\r\n",
         hmInsert k ⟨Value.list (ws ++ vs), none⟩ db)
    ∧ (processCmd now ["LRANGE", k, "0", "-1"]
        (hmInsert k ⟨Value.list (ws ++ vs), none⟩ db)).1
      = "*" ++ toString (ws.length + vs.length) ++ "\r\n" ++ joinBulks (ws ++ vs) := by
  have hvlen : 0 < vs.length := List.length_pos.mpr hvs
  have hwlen : 0 < ws.length := List.length_pos.mpr hws
  refine ⟨?_, ?_, ?_⟩
  · rw [processCmd_RPUSH]
    simp [cmdRPUSH, entryOrInsert, habs, rpush_fold, hmInsert_insert_same]
    intro hcon
    exact absurd hcon (by omega)
  · rw [processCmd_LPUSH]
    simp [cmdLPUSH, entryOrInsert, hmGet_insert_self, lpush_fold, hmInsert_insert_same,
      List.length_append, Nat.add_comm]
    intro hcon
    exact absurd hcon (by omega)
  · rw [processCmd_LRANGE]
    have hp0 : parseI64 "0" = some 0 := by decide
    have hp1 : parseI64 "-1" = some (-1) := by decide
    simp [cmdLRANGE, hmGet_insert_self, is_expired, hp0, hp1]
    rw [lrangeList_full (ws ++ vs) (by simp [hws]) (by
      rw [List.length_append]
      push_cast
      omega)]
    simp [List.length_append]

/-- Claim C5 witness: `RPUSH k a b c` on the empty store answers `:3` and
stores `[a, b, c]`; `LRANGE k 0 -1` after an LPUSH of `x` returns
`[x, a, b, c]` in order. -/
theorem list_push_order_witness :
    processCmd 0 ["RPUSH", "k", "a", "b", "c"] []
      = (":3\r\n", [("k", ⟨Value.list ["a", "b", "c"], none⟩)])
    ∧ (processCmd 0 ["LRANGE", "k", "0", "-1"]
        [("k", ⟨Value.list ["x", "a", "b", "c"], none⟩)]).1
      = "*4\r\n$1\r\nx\r\n$1\r\na\r\n$1\r\nb\r\n$1\r\nc\r\n" := by
  have h := list_push_order 0 "k" ["a", "b", "c"] ["x"] [] rfl (by decide) (by decide)
    (by decide)
  constructor
  · rw [h.1]
    decide
  · have h3 := h.2.2
    rw [show (hmInsert "k" (⟨Value.list (["x"] ++ ["a", "b", "c"]), none⟩ : Entry) [])
        = [("k", ⟨Value.list ["x", "a", "b", "c"], none⟩)] from by decide] at h3
    rw [h3]
    decide

/-! ### Claim C8 -/

/-- Claim C8 counterexample: the claim predicts an empty array whenever
start > stop after clamping, e.g. for `LRANGE k 0 -100` on a 3-element list
(stop becomes 3 - 100 = -97 < 0 = start).  But the source casts the clamped
stop to `usize` *after* only a `.min(len - 1)`, so -97 wraps to 2^64 - 97
and the reply is a malformed array whose count header is 18446744073709551520
followed by the 3 bulk elements — not the empty array. -/
theorem lrange_wrap_counterexample :
    (processCmd 0 ["LRANGE", "k", "0", "-100"]
        [("k", ⟨Value.list ["a", "b", "c"], none⟩)]).1
      = "*18446744073709551520\r\n$1\r\na\r\n$1\r\nb\r\n$1\r\nc\r\n"
    ∧ (processCmd 0 ["LRANGE", "k", "0", "-100"]
        [("k", ⟨Value.list ["a", "b", "c"], none⟩)]).1
      ≠ "*0\r\n" := by
  constructor
  · decide
  · decide

/-- Claim C8 (amended): for a live non-empty list, LRANGE interprets negative
indices from the end, clamps start up to 0 and stop down to n-1, and answers
the inclusive slice when start ≤ stop after clamping and the empty array
otherwise — provided the clamped stop is non-negative (stop ≥ -n); when
stop + n < 0 the `as usize` cast wraps and the reply is malformed (see the
counterexample).  Malformed integer arguments silently default to start 0
and stop -1, i.e. the full list. -/
theorem lrange_indexing (now : Nat) (k a b : String) (db : StoreMap) (e : Entry)
    (l : List String)
    (hget : hmGet k db = some e) (hval : e.value = Value.list l)
    (hlive : is_expired now e = false) (hl : l ≠ [])
    (hn : (l.length : Int) < 2 ^ 63)
    (hstop : -(l.length : Int) ≤ (parseI64 b).getD (-1)) :
    (processCmd now ["LRANGE", k, a, b] db).1 =
      (if max (if (parseI64 a).getD 0 < 0 then (l.length : Int) + (parseI64 a).getD 0
            else (parseI64 a).getD 0) 0 ≤
          min (if (parseI64 b).getD (-1) < 0 then (l.length : Int) + (parseI64 b).getD (-1)
            else (parseI64 b).getD (-1)) ((l.length : Int) - 1) then
        "*" ++
          toString
            ((min (if (parseI64 b).getD (-1) < 0 then (l.length : Int) + (parseI64 b).getD (-1)
                  else (parseI64 b).getD (-1)) ((l.length : Int) - 1) -
                max (if (parseI64 a).getD 0 < 0 then (l.length : Int) + (parseI64 a).getD 0
                  else (parseI64 a).getD 0) 0 + 1).toNat) ++
          "\r\n" ++
          joinBulks
            ((l.drop
                (max (if (parseI64 a).getD 0 < 0 then (l.length : Int) + (parseI64 a).getD 0
                  else (parseI64 a).getD 0) 0).toNat).take
              ((min (if (parseI64 b).getD (-1) < 0 then (l.length : Int) + (parseI64 b).getD (-1)
                    else (parseI64 b).getD (-1)) ((l.length : Int) - 1)).toNat + 1 -
                (max (if (parseI64 a).getD 0 < 0 then (l.length : Int) + (parseI64 a).getD 0
                  else (parseI64 a).getD 0) 0).toNat))
      else "*0\r\n")
    ∧ (parseI64 a = none → parseI64 b = none →
        (processCmd now ["LRANGE", k, a, b] db).1
          = "*" ++ toString l.length ++ "\r\n" ++ joinBulks l) := by
  constructor
  · rw [processCmd_LRANGE]
    simp only [cmdLRANGE]
    rw [if_neg (by simp)]
    rw [show (["LRANGE", k, a, b].getD 1 "") = k from rfl,
      show (["LRANGE", k, a, b].getD 2 "") = a from rfl,
      show (["LRANGE", k, a, b].getD 3 "") = b from rfl, hget]
    dsimp only
    rw [if_neg (by simp [hlive]), hval]
    exact lrangeList_eq _ _ l hl hn (parseI64_getD_range a 0 (by norm_num) (by norm_num)).2
      hstop
  · intro ha hb
    rw [processCmd_LRANGE]
    simp only [cmdLRANGE]
    rw [if_neg (by simp)]
    rw [show (["LRANGE", k, a, b].getD 1 "") = k from rfl,
      show (["LRANGE", k, a, b].getD 2 "") = a from rfl,
      show (["LRANGE", k, a, b].getD 3 "") = b from rfl, hget]
    dsimp only
    rw [if_neg (by simp [hlive]), hval, ha, hb]
    exact lrangeList_full l hl hn

/-- Claim C8 witness: on a live 3-element list, `LRANGE k -100 100` returns
all 3 elements, `LRANGE k 5 10` returns the empty array, and malformed bounds
fall back to the full list. -/
theorem lrange_indexing_witness :
    (processCmd 0 ["LRANGE", "k", "-100", "100"]
        [("k", ⟨Value.list ["a", "b", "c"], none⟩)]).1
      = "*3\r\n$1\r\na\r\n$1\r\nb\r\n$1\r\nc\r\n"
    ∧ (processCmd 0 ["LRANGE", "k", "5", "10"]
        [("k", ⟨Value.list ["a", "b", "c"], none⟩)]).1 = "*0\r\n"
    ∧ (processCmd 0 ["LRANGE", "k", "zz", "yy"]
        [("k", ⟨Value.list ["a", "b", "c"], none⟩)]).1
      = "*3\r\n$1\r\na\r\n$1\r\nb\r\n$1\r\nc\r\n" := by
  refine ⟨?_, ?_, ?_⟩
  · have h := (lrange_indexing 0 "k" "-100" "100" [("k", ⟨Value.list ["a", "b", "c"], none⟩)]
      ⟨Value.list ["a", "b", "c"], none⟩ ["a", "b", "c"] (by decide) rfl (by decide)
      (by decide) (by decide) (by decide)).1
    rw [h]
    decide
  · have h := (lrange_indexing 0 "k" "5" "10" [("k", ⟨Value.list ["a", "b", "c"], none⟩)]
      ⟨Value.list ["a", "b", "c"], none⟩ ["a", "b", "c"] (by decide) rfl (by decide)
      (by decide) (by decide) (by decide)).1
    rw [h]
    decide
  · have h := (lrange_indexing 0 "k" "zz" "yy" [("k", ⟨Value.list ["a", "b", "c"], none⟩)]
      ⟨Value.list ["a", "b", "c"], none⟩ ["a", "b", "c"] (by decide) rfl (by decide)
      (by decide) (by decide) (by decide)).2 (by decide) (by decide)
    rw [h]
    decide

/-! ### Claim C7 -/

/-- Claim C7 counterexample: the claim says any token count other than 3 or
5 is rejected with a wrong-arity usage error leaving the store unchanged.
But `SET k v EX` (4 tokens) is accepted: only counts below 3 are rejected,
so the truncated EX clause is silently ignored and the key is stored. -/
theorem set_arity_counterexample :
    processCmd 0 ["SET", "k", "v", "EX"] [] = ("+OK\r\n", [("k", ⟨Value.string "v", none⟩)])
    ∧ (processCmd 0 ["SET", "k", "v", "EX"] []).1
      ≠ "-ERR usage: SET key value [EX seconds]\r\n" := by
  constructor
  · decide
  · decide

/-- Claim C7 (amended): SET rejects only token counts below 3 with the
usage error, store unchanged.  With at least 5 tokens whose 4th is EX
(case-insensitive), numeric seconds set the deadline now+secs and
non-numeric seconds are rejected without mutating.  Any other count of at
least 3 — including exactly 4, or 5 and more without EX — is accepted with
the extra tokens ignored; an accepted SET always overwrites the key with a
String value (and no expiry unless the EX form matched). -/
theorem set_validation (now : Nat) (k v ex s : String) (extra rest : List String)
    (db : StoreMap) :
    processCmd now ["SET"] db = ("-ERR usage: SET key value [EX seconds]\r\n", db)
    ∧ processCmd now ["SET", k] db = ("-ERR usage: SET key value [EX seconds]\r\n", db)
    ∧ (extra.length < 2 ∨ toUpperStr (extra.getD 0 "") ≠ "EX" →
        processCmd now ("SET" :: k :: v :: extra) db
          = ("+OK\r\n", hmInsert k ⟨Value.string v, none⟩ db))
    ∧ (toUpperStr ex = "EX" → ∀ n, parseU64 s = some n →
        processCmd now ("SET" :: k :: v :: ex :: s :: rest) db
          = ("+OK\r\n", hmInsert k ⟨Value.string v, some (now + n)⟩ db))
    ∧ (toUpperStr ex = "EX" → parseU64 s = none →
        processCmd now ("SET" :: k :: v :: ex :: s :: rest) db
          = ("-ERR invalid expire time\r\n", db)) := by
  refine ⟨?_, ?_, ?_, ?_, ?_⟩
  · rw [processCmd_SET]
    simp [cmdSET]
  · rw [processCmd_SET]
    simp [cmdSET]
  · intro h
    rw [processCmd_SET]
    simp only [cmdSET]
    rw [if_neg (by simp only [List.length_cons]; omega)]
    rw [if_neg (by
      rintro ⟨h5, hEX⟩
      rcases h with h | h
      · simp only [List.length_cons] at h5
        omega
      · rw [show (("SET" :: k :: v :: extra).getD 3 "") = extra.getD 0 "" from rfl] at hEX
        exact h hEX)]
    rfl
  · intro hEX n hn
    rw [processCmd_SET]
    simp only [cmdSET]
    rw [if_neg (by simp only [List.length_cons]; omega)]
    rw [if_pos ⟨by simp only [List.length_cons]; omega,
      by rw [show (("SET" :: k :: v :: ex :: s :: rest).getD 3 "") = ex from rfl]; exact hEX⟩]
    rw [show (("SET" :: k :: v :: ex :: s :: rest).getD 4 "") = s from rfl, hn]
    rfl
  · intro hEX hn
    rw [processCmd_SET]
    simp only [cmdSET]
    rw [if_neg (by simp only [List.length_cons]; omega)]
    rw [if_pos ⟨by simp only [List.length_cons]; omega,
      by rw [show (("SET" :: k :: v :: ex :: s :: rest).getD 3 "") = ex from rfl]; exact hEX⟩]
    rw [show (("SET" :: k :: v :: ex :: s :: rest).getD 4 "") = s from rfl, hn]

/-- Claim C7 witness: `SET k v PX 10` ignores the junk and stores a plain
string; `SET k v EX 10` at time 7 stores deadline 17; `SET k v EX x` is
rejected without mutation. -/
theorem set_validation_witness :
    processCmd 7 ["SET", "k", "v", "PX", "10"] []
      = ("+OK\r\n", [("k", ⟨Value.string "v", none⟩)])
    ∧ processCmd 7 ["SET", "k", "v", "EX", "10"] []
      = ("+OK\r\n", [("k", ⟨Value.string "v", some 17⟩)])
    ∧ processCmd 7 ["SET", "k", "v", "EX", "x"] []
      = ("-ERR invalid expire time\r\n", []) := by
  refine ⟨?_, ?_, ?_⟩
  · have h := (set_validation 7 "k" "v" "" "" ["PX", "10"] [] []).2.2.1
      (Or.inr (by decide))
    rw [h]
    decide
  · have h := (set_validation 7 "k" "v" "EX" "10" [] [] []).2.2.2.1 (by decide) 10 (by decide)
    rw [h]
    decide
  · have h := (set_validation 7 "k" "v" "EX" "x" [] [] []).2.2.2.2 (by decide) (by decide)
    rw [h]

/-! ### Claim C10 -/

/-- Claim C10: LPUSH and RPUSH on a present-but-expired list entry do not
treat the key as absent: they push onto the stale list in place, answer the
length counting stale plus new elements, and leave the past deadline
unchanged; the pushed values stay invisible to GET/LRANGE/LLEN/LPOP/RPOP and
the sweeper destroys the entry. -/
theorem push_on_expired (now : Nat) (k : String) (vs l : List String) (exp : Nat)
    (db : StoreMap) (hvs : vs ≠ [])
    (hget : hmGet k db = some ⟨Value.list l, some exp⟩) (hle : exp ≤ now) :
    processCmd now ("LPUSH" :: k :: vs) db
      = (":" ++ toString (vs.length + l.length) ++ "\r\n",
         hmInsert k ⟨Value.list (vs ++ l), some exp⟩ db)
    ∧ processCmd now ("RPUSH" :: k :: vs) db
      = (":" ++ toString (l.length + vs.length) ++ "\r\n",
         hmInsert k ⟨Value.list (l ++ vs), some exp⟩ db)
    ∧ (processCmd now ["GET", k] (hmInsert k ⟨Value.list (vs ++ l), some exp⟩ db)).1
      = "$-1\r\n"
    ∧ (∀ a b, (processCmd now ["LRANGE", k, a, b]
        (hmInsert k ⟨Value.list (vs ++ l), some exp⟩ db)).1 = "*0\r\n")
    ∧ (processCmd now ["LLEN", k] (hmInsert k ⟨Value.list (vs ++ l), some exp⟩ db)).1
      = ":0\r\n"
    ∧ (processCmd now ["LPOP", k] (hmInsert k ⟨Value.list (vs ++ l), some exp⟩ db)).1
      = "$-1\r\n"
    ∧ (processCmd now ["RPOP", k] (hmInsert k ⟨Value.list (vs ++ l), some exp⟩ db)).1
      = "$-1\r\n"
    ∧ hmGet k (cleanup_expired now (hmInsert k ⟨Value.list (vs ++ l), some exp⟩ db)) = none := by
  have hvlen : 0 < vs.length := List.length_pos.mpr hvs
  have hget' : hmGet k (hmInsert k ⟨Value.list (vs ++ l), some exp⟩ db)
      = some ⟨Value.list (vs ++ l), some exp⟩ := hmGet_insert_self _ _ db
  have hexp' : is_expired now (⟨Value.list (vs ++ l), some exp⟩ : Entry) = true := by
    simp [is_expired, hle]
  obtain ⟨hG, _, hL, hR, hP, hQ⟩ := expired_entry_reads hget' hexp'
  refine ⟨?_, ?_, hG, hR, hL, hP, hQ, cleanup_expired_removes hget' hexp'⟩
  · rw [processCmd_LPUSH]
    simp [cmdLPUSH, entryOrInsert, hget, lpush_fold]
    intro hcon
    exact absurd hcon (by omega)
  · rw [processCmd_RPUSH]
    simp [cmdRPUSH, entryOrInsert, hget, rpush_fold]
    intro hcon
    exact absurd hcon (by omega)

/-- Claim C10 witness: at time 10, LPUSH onto `k` holding `[a]` with the
passed deadline 5 answers `:2` and keeps deadline 5; LLEN still answers 0
and the sweeper removes the key. -/
theorem push_on_expired_witness :
    processCmd 10 ["LPUSH", "k", "x"] [("k", ⟨Value.list ["a"], some 5⟩)]
      = (":2\r\n", [("k", ⟨Value.list ["x", "a"], some 5⟩)])
    ∧ (processCmd 10 ["LLEN", "k"] [("k", ⟨Value.list ["x", "a"], some 5⟩)]).1 = ":0\r\n"
    ∧ hmGet "k" (cleanup_expired 10 [("k", ⟨Value.list ["x", "a"], some 5⟩)]) = none := by
  have h := push_on_expired 10 "k" ["x"] ["a"] 5 [("k", ⟨Value.list ["a"], some 5⟩)]
    (by decide) (by decide) (by decide)
  have hins : hmInsert "k" (⟨Value.list (["x"] ++ ["a"]), some 5⟩ : Entry)
      [("k", ⟨Value.list ["a"], some 5⟩)] = [("k", ⟨Value.list ["x", "a"], some 5⟩)] := by
    decide
  refine ⟨?_, ?_, ?_⟩
  · have h1 := h.1
    rw [hins] at h1
    rw [h1]
    decide
  · have h5 := h.2.2.2.2.1
    rwa [hins] at h5
  · have h8 := h.2.2.2.2.2.2.2
    rwa [hins] at h8

/-! ### Claim C2 -/

/-- Claim C2: per-key snapshot round trip.  `save_data` drops expired
entries and converts each kept deadline to the absolute Unix timestamp
now_wall + (deadline - now_mono); `load_data` over that snapshot rebuilds
exactly the saved entries whose stored expiry is not yet reached at load
time (skipping those with stored expiry ≤ wall clock), value unchanged,
deadline now_mono' + (stored - now_wall') with saturating subtraction. -/
theorem snapshot_roundtrip (db : StoreMap) (hnd : (db.map Prod.fst).Nodup)
    (nm nw nm' nw' : Nat) (k : String) :
    (hmGet k (save_data nm nw db) =
      match hmGet k db with
      | some e =>
        if is_expired nm e then none
        else some ⟨serValue e.value, e.expires_at.map (fun exp => nw + (exp - nm))⟩
      | none => none)
    ∧ (hmGet k (load_data nm' nw' (save_data nm nw db) []) =
      match hmGet k db with
      | some e =>
        if is_expired nm e then none
        else
          match e.expires_at with
          | some exp =>
            if nw + (exp - nm) ≤ nw' then none
            else some ⟨e.value, some (nm' + (nw + (exp - nm) - nw'))⟩
          | none => some ⟨e.value, none⟩
      | none => none) := by
  have hsave := hmGet_save nm nw hnd k
  refine ⟨hsave, ?_⟩
  rw [load_data_get _ (save_keys_nodup hnd) [], hsave]
  rcases hget : hmGet k db with _ | e
  · rfl
  · by_cases he : is_expired nm e = true
    · simp [he, hmGet]
    · simp only [he, Bool.false_eq_true, if_false]
      rcases hdl : e.expires_at with _ | exp
      · simp [loadEntry, loadValue_serValue, hmGet]
      · by_cases hle : nw + (exp - nm) ≤ nw'
        · simp [hle, hmGet]
        · simp [hle, loadEntry, loadValue_serValue]

/-- Claim C2 witness: saving at monotonic 10 / wall 1000 and loading at
monotonic 7 / wall 1050: key `a` (deadline 110 → stored 1100) survives with
deadline 7 + 50 = 57, `b` (no expiry) survives unchanged, and `c` (deadline
3, already expired at save) is absent. -/
theorem snapshot_roundtrip_witness :
    hmGet "a" (load_data 7 1050 (save_data 10 1000
        [("a", ⟨Value.string "1", some 110⟩), ("b", ⟨Value.list ["x", "y"], none⟩),
         ("c", ⟨Value.string "z", some 3⟩)]) [])
      = some ⟨Value.string "1", some 57⟩
    ∧ hmGet "b" (load_data 7 1050 (save_data 10 1000
        [("a", ⟨Value.string "1", some 110⟩), ("b", ⟨Value.list ["x", "y"], none⟩),
         ("c", ⟨Value.string "z", some 3⟩)]) [])
      = some ⟨Value.list ["x", "y"], none⟩
    ∧ hmGet "c" (load_data 7 1050 (save_data 10 1000
        [("a", ⟨Value.string "1", some 110⟩), ("b", ⟨Value.list ["x", "y"], none⟩),
         ("c", ⟨Value.string "z", some 3⟩)]) [])
      = none := by
  refine ⟨?_, ?_, ?_⟩
  · rw [(snapshot_roundtrip [("a", ⟨Value.string "1", some 110⟩),
      ("b", ⟨Value.list ["x", "y"], none⟩), ("c", ⟨Value.string "z", some 3⟩)]
      (by decide) 10 1000 7 1050 "a").2]
    decide
  · rw [(snapshot_roundtrip [("a", ⟨Value.string "1", some 110⟩),
      ("b", ⟨Value.list ["x", "y"], none⟩), ("c", ⟨Value.string "z", some 3⟩)]
      (by decide) 10 1000 7 1050 "b").2]
    decide
  · rw [(snapshot_roundtrip [("a", ⟨Value.string "1", some 110⟩),
      ("b", ⟨Value.list ["x", "y"], none⟩), ("c", ⟨Value.string "z", some 3⟩)]
      (by decide) 10 1000 7 1050 "c").2]
    decide

/-! ### Claim C9 -/

/-- Claim C9 counterexample: the claim says serialization and the file write
happen only after the store lock is released.  In `save_data` the guard
taken on its first line lives to the end of the function, so the
`fs::write` event precedes the lock-release event in statement order. -/
theorem save_io_while_locked_counterexample :
    save_data_trace.indexOf SaveEv.writeFile
      < save_data_trace.indexOf SaveEv.releaseStoreLock
    ∧ ¬(save_data_trace.indexOf SaveEv.releaseStoreLock
        < save_data_trace.indexOf SaveEv.writeFile) := by
  constructor
  · decide
  · decide

/-- Claim C9 (amended): the SAVE arm drops the command handler's own guard
before calling `save_data` (avoiding self-deadlock), but `save_data`
re-acquires the store lock and holds it through the snapshot copy, the JSON
serialization and the file write; concurrent commands are blocked for the
whole save, including the disk write. -/
theorem save_lock_ordering :
    save_data_trace.indexOf SaveEv.acquireStoreLock
      < save_data_trace.indexOf SaveEv.snapshotCopy
    ∧ save_data_trace.indexOf SaveEv.snapshotCopy
      < save_data_trace.indexOf SaveEv.serializeJson
    ∧ save_data_trace.indexOf SaveEv.serializeJson
      < save_data_trace.indexOf SaveEv.writeFile
    ∧ save_data_trace.indexOf SaveEv.writeFile
      < save_data_trace.indexOf SaveEv.releaseStoreLock
    ∧ save_cmd_trace
      = [SaveEv.acquireStoreLock, SaveEv.releaseStoreLock, SaveEv.acquireStoreLock,
         SaveEv.snapshotCopy, SaveEv.serializeJson, SaveEv.writeFile,
         SaveEv.releaseStoreLock] := by
  refine ⟨by decide, by decide, by decide, by decide, by decide⟩

end RedRust
